import Mathlib

/-!
Verification development for the structural-inference and relevance-ranking
pipeline of the Adobe_Hackathon_Round2 repository.

Strings are shallowly embedded as lists of characters with ASCII semantics
for the Python predicates (isupper, istitle, strip, lower, the regular
expression prefix matchers).  Python float arithmetic is modelled exactly
over the rationals; all comparisons and set operations on font sizes and
scores in the source are pure comparisons, so the embedding is faithful on
every exactly-representable input.
-/

namespace Round2

/-- Python strings are modelled as lists of characters. -/
abbrev Str := List Char

/-- ASCII model of the Python whitespace class used by strip and the regex class backslash-s. -/
def isSpaceChar (c : Char) : Bool :=
  c == ' ' || c == '\t' || c == '\n' || c == '\r' || c == '\x0b' || c == '\x0c'

/-- ASCII model of the Python regex word-character class: alphanumeric or underscore. -/
def isWordChar (c : Char) : Bool :=
  c.isAlphanum || c == '_'

/-- Python str.strip with no argument: remove leading and trailing whitespace. -/
def stripStr (s : Str) : Str :=
  ((s.dropWhile isSpaceChar).reverse.dropWhile isSpaceChar).reverse

/-- Python str.lower, ASCII model. -/
def lowerStr (s : Str) : Str := s.map Char.toLower

/-- Python str.split with an explicit single-character separator: splits on every
occurrence and keeps empty fragments; the empty string yields one empty fragment. -/
def pySplit (sep : Char) : Str → List Str
  | [] => [[]]
  | c :: rest =>
    let groups := pySplit sep rest
    if c == sep then [] :: groups
    else
      match groups with
      | [] => [[c]]
      | g :: gs => (c :: g) :: gs

/-- Whether the first list is a prefix of the second (used for substring search). -/
def startsWithL : Str → Str → Bool
  | [], _ => true
  | _ :: _, [] => false
  | a :: as, b :: bs => a == b && startsWithL as bs

/-- Python substring containment needle-in-hay; the empty needle is contained everywhere. -/
def containsSub (needle : Str) : Str → Bool
  | [] => startsWithL needle []
  | c :: rest => startsWithL needle (c :: rest) || containsSub needle rest

/-- Python sep.join over a list of strings. -/
def joinSep (sep : Str) : List Str → Str
  | [] => []
  | [s] => s
  | s :: rest => s ++ sep ++ joinSep sep rest

/-- Squeeze runs of space characters down to a single space (helper for clean_text). -/
def squeezeSpaces : Str → Str
  | [] => []
  | [c] => [c]
  | a :: b :: r =>
    if a == ' ' && b == ' ' then squeezeSpaces (b :: r) else a :: squeezeSpaces (b :: r)

/-- Characters kept by the second substitution of clean_text: word characters,
whitespace and basic punctuation; everything else becomes a space. -/
def isAllowedChar (c : Char) : Bool :=
  isWordChar c || isSpaceChar c || c == '.' || c == ',' || c == '!' || c == '?' ||
  c == ':' || c == ';' || c == '-' || c == '(' || c == ')'

/-- TextProcessor.clean_text: collapse whitespace runs to one space, replace
disallowed characters by a space, then strip. -/
def clean_text (text : Str) : Str :=
  let collapsed := squeezeSpaces (text.map (fun c => if isSpaceChar c then ' ' else c))
  stripStr ((collapsed.map (fun c => if isAllowedChar c then c else ' ')))

/-- Python str.isupper, ASCII model: at least one letter and every letter uppercase. -/
def py_isupper (s : Str) : Bool :=
  s.any Char.isAlpha && s.all (fun c => !c.isAlpha || c.isUpper)

/-- Scanner for py_istitle: tracks whether the previous character was cased and
whether any cased character has been seen. -/
def py_istitle_aux : Str → Bool → Bool → Bool
  | [], _, seen => seen
  | c :: rest, prevCased, seen =>
    if c.isUpper then !prevCased && py_istitle_aux rest true true
    else if c.isLower then prevCased && py_istitle_aux rest true true
    else py_istitle_aux rest false seen

/-- Python str.istitle, ASCII model: uppercase letters only after uncased characters,
lowercase letters only after cased ones, and at least one cased character. -/
def py_istitle (s : Str) : Bool := py_istitle_aux s false false

/-- Python str.endswith colon test on a string. -/
def endsWithColon (s : Str) : Bool :=
  match s.getLast? with
  | some c => c == ':'
  | none => false

/-- Prefix matcher for the regex digits then dot-or-paren then whitespace.
The character classes at every boundary are disjoint, so maximal munch agrees
with the backtracking semantics. -/
def matchNumberedPat (s : Str) : Bool :=
  let ds := s.takeWhile Char.isDigit
  let rest := s.dropWhile Char.isDigit
  !ds.isEmpty &&
    (match rest with
     | c :: d :: _ => (c == '.' || c == ')') && isSpaceChar d
     | _ => false)

/-- Prefix matcher for the regex one-or-more capitals then dot-or-whitespace. -/
def matchCapsPat (s : Str) : Bool :=
  let us := s.takeWhile Char.isUpper
  let rest := s.dropWhile Char.isUpper
  !us.isEmpty &&
    (match rest with
     | c :: _ => c == '.' || isSpaceChar c
     | [] => false)

/-- Prefix matcher for the regex word characters then whitespace then a digit. -/
def matchWordNumPat (s : Str) : Bool :=
  let ws := s.takeWhile isWordChar
  let r1 := s.dropWhile isWordChar
  let sp := r1.takeWhile isSpaceChar
  let r2 := r1.dropWhile isSpaceChar
  !ws.isEmpty && !sp.isEmpty &&
    (match r2 with
     | c :: _ => c.isDigit
     | [] => false)

/-- The five scored criteria of is_likely_heading as a function of the text
and the already-computed font-size ratio: larger font is worth 2, short text 1,
upper-or-title case 1, trailing colon 1, a heading pattern 2. -/
def heading_points (text : Str) (ratio : ℚ) : Nat :=
  (if decide (ratio > 1.1) then 2 else 0) +
    (if decide (text.length < 100) then 1 else 0) +
    (if py_isupper text || py_istitle text then 1 else 0) +
    (if endsWithColon (stripStr text) then 1 else 0) +
    (if matchNumberedPat (stripStr text) || matchCapsPat (stripStr text) ||
        matchWordNumPat (stripStr text) then 2 else 0)

/-- TextProcessor.is_likely_heading: reject short stripped text, then score
the five criteria with the ratio defaulting to 1 on a non-positive average;
accept iff the total is at least 3. -/
def is_likely_heading (text : Str) (font_size avg_font_size : ℚ) : Bool :=
  if text.isEmpty || decide ((stripStr text).length < 3) then false
  else decide (3 ≤ heading_points text
    (if 0 < avg_font_size then font_size / avg_font_size else 1))

/-- Token produced by the external spaCy tokenizer: surface text, lemma and
the three boolean attributes the keyword filter reads. -/
structure Token where
  text : Str
  lemma_ : Str
  is_alpha : Bool
  is_stop : Bool
  is_punct : Bool
deriving DecidableEq

/-- The external NLP model: a total tokenization function. -/
def Tokenizer : Type := Str → List Token

/-- The keyword filter of TextProcessor.extract_keywords applied to one token. -/
def keywordOf (t : Token) : Option Str :=
  if t.is_alpha && !t.is_stop && !t.is_punct && decide (t.text.length > 2)
  then some (lowerStr t.lemma_) else none

/-- Structural worker for firstDedup: the fuel bounds the recursion depth and
never runs out when initialised with the list length, since filtering only
shortens the tail. -/
def firstDedupAux : Nat → List Str → List Str
  | _, [] => []
  | 0, _ :: _ => []
  | n + 1, a :: r => a :: firstDedupAux n (r.filter (fun x => !(x == a)))

/-- Distinct elements of a list keeping first occurrences in order, as a Python
Counter enumerates its keys. -/
def firstDedup (l : List Str) : List Str := firstDedupAux l.length l

/-- TextProcessor.extract_keywords: with no model or empty text the result is
empty; otherwise tokenize, keep alphabetic non-stop non-punctuation tokens of
length above 2 as lowered lemmas, and return the keys most frequent first
(stable on ties, as Counter.most_common is) capped at max_keywords. -/
def extract_keywords (nlp : Option Tokenizer) (text : Str) (max_keywords : Nat) : List Str :=
  match nlp with
  | none => []
  | some f =>
    if text.isEmpty then []
    else
      let kws := (f text).filterMap keywordOf
      let keys := firstDedup kws
      let sortedKeys := List.insertionSort (fun a b => kws.count b ≤ kws.count a) keys
      sortedKeys.take max_keywords

/-- RelevanceExtractor._calculate_keyword_relevance: Jaccard similarity of the
two keyword sets with early zero returns for empty query or text and for an
empty query keyword set. -/
def calculate_keyword_relevance (nlp : Option Tokenizer) (query text : Str) : ℚ :=
  if query.isEmpty || text.isEmpty then 0
  else
    let query_keywords := (extract_keywords nlp (lowerStr query) 10).toFinset
    let text_keywords := (extract_keywords nlp (lowerStr text) 10).toFinset
    if query_keywords = ∅ then 0
    else
      let inter := (query_keywords ∩ text_keywords).card
      let uni := (query_keywords ∪ text_keywords).card
      if 0 < uni then (inter : ℚ) / (uni : ℚ) else 0

/-- The keyword set a text contributes to the Jaccard score: extract_keywords
on the lowered text, capped at 10, read as a finite set. -/
def kwSet (nlp : Option Tokenizer) (s : Str) : Finset Str :=
  (extract_keywords nlp (lowerStr s) 10).toFinset

/-- Heading candidate collected by the outline path: cleaned text, font size
and 1-based page. -/
structure Heading where
  text : Str
  font_size : ℚ
  page : Nat
deriving DecidableEq

/-- Final outline entry: level, text and 1-based page, with no font-size field
(the type has exactly these three fields). -/
structure OutlineEntry where
  level : Str
  text : Str
  page : Nat
deriving DecidableEq

/-- The distinct font sizes over all candidates, sorted descending, as
sorted(set(...), reverse=True) computes them. -/
def unique_font_sizes (headings : List Heading) : List ℚ :=
  List.insertionSort (fun a b : ℚ => b ≤ a)
    ((headings.map (fun h => h.font_size)).dedup)

/-- The font-size-to-level dictionary built from the first three distinct
sizes: index 0 maps to H1, index 1 to H2, index 2 to H3. -/
def font_to_level (u : List ℚ) : List (ℚ × Str) :=
  match u with
  | [] => []
  | [a] => [(a, "H1".data)]
  | [a, b] => [(a, "H1".data), (b, "H2".data)]
  | a :: b :: c :: _ => [(a, "H1".data), (b, "H2".data), (c, "H3".data)]

/-- Python dict.get over an association list built by successive insertions:
the last binding for a key wins, a missing key yields the default. -/
def dict_get (assoc : List (ℚ × Str)) (k : ℚ) (dflt : Str) : Str :=
  match assoc.reverse.find? (fun p => decide (p.1 = k)) with
  | some p => p.2
  | none => dflt

/-- The level OutlineExtractor._refine_heading_hierarchy assigns to a font
size: dictionary lookup with default H3. -/
def levelFor (headings : List Heading) (fs : ℚ) : Str :=
  dict_get (font_to_level (unique_font_sizes headings)) fs "H3".data

/-- OutlineExtractor._refine_heading_hierarchy: assign levels from the ranking
of distinct font sizes, drop the font-size field, stable-sort by page and keep
the first 50 entries. -/
def refine_heading_hierarchy (headings : List Heading) : List OutlineEntry :=
  if headings.isEmpty then []
  else
    let refined := headings.map (fun h =>
      OutlineEntry.mk (levelFor headings h.font_size) h.text h.page)
    (List.insertionSort (fun a b : OutlineEntry => a.page ≤ b.page) refined).take 50

/-- The output of _refine_heading_hierarchy with every surviving entry restored
to its original font size: the sort and the truncation act on whole records,
so restoring sizes positionally yields exactly the stable page sort of the
input truncated to 50 (refine_eq_map_keep below records this correspondence). -/
def refine_keep_sizes (headings : List Heading) : List Heading :=
  (List.insertionSort (fun a b : Heading => a.page ≤ b.page) headings).take 50

/-- Level assignment as the specification words it: the rank of a size in the
descending order of distinct sizes, counted as how many distinct sizes exceed
it; rank 0 is H1, rank 1 is H2, every further rank is H3. -/
def rankLevelSpec (headings : List Heading) (fs : ℚ) : Str :=
  let n := (((headings.map (fun h => h.font_size)).dedup).filter
    (fun s => decide (fs < s))).length
  if n = 0 then "H1".data else if n = 1 then "H2".data else "H3".data

/-- Section produced by the relevance path. -/
structure Section where
  document : Str
  page : Nat
  title : Str
  content : Str
  heading_level : Str
deriving DecidableEq

/-- A section together with the relevance score attached by the ranker. -/
structure ScoredSection where
  sec : Section
  relevance_score : ℚ
deriving DecidableEq

/-- Span of a page as the parser delivers it to the relevance path; only the
fields the segmenter reads are modelled. -/
structure Span where
  text : Str
  font_size : ℚ
deriving DecidableEq

/-- Heading found in a page by the relevance path. -/
structure PageHeading where
  text : Str
  font_size : ℚ
  level : Str
deriving DecidableEq

/-- RelevanceExtractor._find_headings_in_page: classify each span against the
page-local average font size; every accepted span yields a cleaned heading
with default level H2. -/
def find_headings_in_page (formatted_text : List Span) : List PageHeading :=
  if formatted_text.isEmpty then []
  else
    let avg_font_size : ℚ :=
      ((formatted_text.map (fun it => it.font_size)).sum) / (formatted_text.length : ℚ)
    formatted_text.filterMap (fun it =>
      if is_likely_heading it.text it.font_size avg_font_size
      then some (PageHeading.mk (clean_text it.text) it.font_size "H2".data)
      else none)

/-- Index of the first element satisfying the predicate, as the linear search
loop of _extract_section_content computes it. -/
def findFirstIdx (p : α → Bool) : List α → Option Nat
  | [] => none
  | a :: l => if p a then some 0 else (findFirstIdx p l).map (fun i => i + 1)

/-- RelevanceExtractor._extract_section_content: find the first line whose
lowered form contains the lowered heading; on a hit return the next ten lines
joined by spaces and stripped, on a miss the first ten lines joined by spaces. -/
def extract_section_content (page_text heading : Str) : Str :=
  let lines := pySplit '\n' page_text
  match findFirstIdx (fun line => containsSub (lowerStr heading) (lowerStr line)) lines with
  | none => joinSep " ".data (lines.take 10)
  | some idx => stripStr (joinSep " ".data ((lines.drop (idx + 1)).take 10))

/-- The synthetic whole-page section title, Page followed by the 1-based number. -/
def page_title (n : Nat) : Str := "Page ".data ++ (Nat.repr n).data

/-- The per-page body of RelevanceExtractor._extract_document_sections: with no
accepted heading and non-whitespace text emit one whole-page section at level
content, otherwise one section per accepted heading with a windowed content. -/
def extract_page_sections (filename : Str) (formatted_text : List Span)
    (plain_text : Str) (page_num : Nat) : List Section :=
  let headings := find_headings_in_page formatted_text
  if headings.isEmpty then
    if !(stripStr plain_text).isEmpty then
      [Section.mk filename (page_num + 1) (page_title (page_num + 1)) plain_text "content".data]
    else []
  else
    headings.map (fun h =>
      Section.mk filename (page_num + 1) h.text
        (extract_section_content plain_text h.text) h.level)

/-- The mutable attributes of RelevanceExtractor that the scoring path can
read: the optional embedding model and the optional NLP model. An embedding
model maps a text to a vector, or to none when encoding raises. -/
structure ExtractorState where
  sentence_model : Option (Str → Option (List ℚ))
  nlp : Option Tokenizer

/-- Dot product of two rational vectors, as numpy dot computes it on
equal-length vectors. -/
def dotQ : List ℚ → List ℚ → ℚ
  | a :: as, b :: bs => a * b + dotQ as bs
  | _, _ => 0

/-- RelevanceExtractor._calculate_semantic_relevance: encode both texts and
return the cosine similarity; if either encoding raises, fall back to the
keyword score for this call. The numeric square root of the external float
library is passed in as sqrtQ; the extractor state is returned unchanged,
mirroring that the method assigns no attribute. -/
def calculate_semantic_relevance (s : ExtractorState) (m : Str → Option (List ℚ))
    (sqrtQ : ℚ → ℚ) (query text : Str) : ℚ × ExtractorState :=
  match m query with
  | none => (calculate_keyword_relevance s.nlp query text, s)
  | some qe =>
    match m text with
    | none => (calculate_keyword_relevance s.nlp query text, s)
    | some te => (dotQ qe te / (sqrtQ (dotQ qe qe) * sqrtQ (dotQ te te)), s)

/-- The per-section scoring dispatch of _rank_sections_by_relevance: semantic
strategy when a sentence model is present, keyword strategy otherwise. -/
def calculate_relevance (s : ExtractorState) (sqrtQ : ℚ → ℚ)
    (query text : Str) : ℚ × ExtractorState :=
  match s.sentence_model with
  | some m => calculate_semantic_relevance s m sqrtQ query text
  | none => (calculate_keyword_relevance s.nlp query text, s)

/-- The ordering step of _rank_sections_by_relevance: the stable Python sort by
relevance score descending. -/
def rank_order (scored : List ScoredSection) : List ScoredSection :=
  List.insertionSort (fun a b : ScoredSection => b.relevance_score ≤ a.relevance_score) scored

/-- RelevanceExtractor._rank_sections_by_relevance: score every section against
the persona-job query over title and content, then sort descending by score. -/
def rank_sections_by_relevance (s : ExtractorState) (sqrtQ : ℚ → ℚ)
    (sections : List Section) (persona job : Str) : List ScoredSection :=
  if sections.isEmpty then []
  else
    let query := persona ++ (' ' :: job)
    let scored := sections.map (fun sec0 =>
      ScoredSection.mk sec0
        (calculate_relevance s sqrtQ query (sec0.title ++ (' ' :: sec0.content))).1)
    rank_order scored

/-- The relevant fragments of _create_refined_text: among the first five dot
fragments, the stripped ones longer than 20 characters that contain the
persona or the job case-insensitively. -/
def relevantSel (content persona job : Str) : List Str :=
  ((pySplit '.' content).take 5).filterMap (fun s0 =>
    if decide ((stripStr s0).length > 20) &&
        (containsSub (lowerStr persona) (lowerStr (stripStr s0)) ||
          containsSub (lowerStr job) (lowerStr (stripStr s0)))
    then some (stripStr s0) else none)

/-- The fallback fragments of _create_refined_text: among the first two dot
fragments, the stripped ones longer than 20 characters. -/
def fallbackSel (content : Str) : List Str :=
  ((pySplit '.' content).take 2).filterMap (fun s0 =>
    if decide ((stripStr s0).length > 20) then some (stripStr s0) else none)

/-- The fragments RelevanceExtractor._create_refined_text keeps: the relevant
fragments, or the fallback fragments when none is relevant. -/
def selected_sentences (content persona job : Str) : List Str :=
  if (relevantSel content persona job).isEmpty then fallbackSel content
  else relevantSel content persona job

/-- RelevanceExtractor._create_refined_text: join at most three selected
fragments with dot-space and hard-truncate to 300 characters with an ellipsis. -/
def create_refined_text (content persona job : Str) : Str :=
  if content.isEmpty then []
  else
    let refined := joinSep ". ".data ((selected_sentences content persona job).take 3)
    if decide (refined.length > 300) then refined.take 300 ++ "...".data else refined

instance : IsTotal ℚ (fun a b : ℚ => b ≤ a) := ⟨fun a b => le_total b a⟩

instance : IsTrans ℚ (fun a b : ℚ => b ≤ a) := ⟨fun _ _ _ hab hbc => le_trans hbc hab⟩

instance : IsAntisymm ℚ (fun a b : ℚ => b ≤ a) := ⟨fun _ _ h1 h2 => le_antisymm h2 h1⟩

instance : IsTotal OutlineEntry (fun a b : OutlineEntry => a.page ≤ b.page) :=
  ⟨fun a b => Nat.le_total a.page b.page⟩

instance : IsTrans OutlineEntry (fun a b : OutlineEntry => a.page ≤ b.page) :=
  ⟨fun _ _ _ => Nat.le_trans⟩

instance : IsTotal Heading (fun a b : Heading => a.page ≤ b.page) :=
  ⟨fun a b => Nat.le_total a.page b.page⟩

instance : IsTrans Heading (fun a b : Heading => a.page ≤ b.page) :=
  ⟨fun _ _ _ => Nat.le_trans⟩

instance : IsTotal ScoredSection (fun a b : ScoredSection => b.relevance_score ≤ a.relevance_score) :=
  ⟨fun a b => le_total b.relevance_score a.relevance_score⟩

instance : IsTrans ScoredSection (fun a b : ScoredSection => b.relevance_score ≤ a.relevance_score) :=
  ⟨fun _ _ _ hab hbc => le_trans hbc hab⟩

/-- Filtering commutes with an ordered insertion provided nothing the inserted
element passes over can satisfy the filter. -/
lemma filter_orderedInsert_of (r : α → α → Prop) [DecidableRel r] (p : α → Bool)
    (h : ∀ a b, p a = true → ¬ r a b → p b = false) (a : α) :
    ∀ l : List α, (List.orderedInsert r a l).filter p =
      if p a then a :: l.filter p else l.filter p := by
  intro l
  induction l with
  | nil =>
    by_cases hpa : p a = true
    · simp [List.orderedInsert, List.filter, hpa]
    · simp only [Bool.not_eq_true] at hpa
      simp [List.orderedInsert, List.filter, hpa]
  | cons b l ih =>
    by_cases hr : r a b
    · simp only [List.orderedInsert, if_pos hr]
      by_cases hpa : p a = true
      · simp [List.filter_cons, hpa]
      · simp only [Bool.not_eq_true] at hpa
        simp [List.filter_cons, hpa]
    · simp only [List.orderedInsert, if_neg hr]
      by_cases hpa : p a = true
      · have hpb : p b = false := h a b hpa hr
        simp [List.filter_cons, hpb, ih, hpa]
      · simp only [Bool.not_eq_true] at hpa
        simp [List.filter_cons, ih, hpa]

/-- Stability of insertion sort, phrased through filters: the subsequence of
elements inside one key class is untouched by the sort. -/
lemma filter_insertionSort_of (r : α → α → Prop) [DecidableRel r] (p : α → Bool)
    (h : ∀ a b, p a = true → ¬ r a b → p b = false) :
    ∀ l : List α, (List.insertionSort r l).filter p = l.filter p := by
  intro l
  induction l with
  | nil => rfl
  | cons a l ih =>
    simp only [List.insertionSort]
    rw [filter_orderedInsert_of r p h a]
    by_cases hpa : p a = true
    · simp [List.filter_cons, hpa, ih]
    · simp only [Bool.not_eq_true] at hpa
      simp [List.filter_cons, hpa, ih]

/-- Filtering a prefix of a list yields a prefix of the filtered list. -/
lemma filter_take_eq_take_filter (p : α → Bool) :
    ∀ (l : List α) (n : Nat), ∃ k, (l.take n).filter p = (l.filter p).take k := by
  intro l
  induction l with
  | nil => intro n; exact ⟨0, by simp⟩
  | cons a l ih =>
    intro n
    cases n with
    | zero => exact ⟨0, by simp⟩
    | succ n =>
      obtain ⟨k, hk⟩ := ih n
      by_cases hpa : p a = true
      · exact ⟨k + 1, by simp [List.filter_cons, hpa, hk]⟩
      · simp only [Bool.not_eq_true] at hpa
        exact ⟨k, by simp [List.filter_cons, hpa, hk]⟩

/-- Taking at least the length of a list returns the list. -/
lemma take_eq_self_of_le : ∀ (l : List α) (n : Nat), l.length ≤ n → l.take n = l := by
  intro l
  induction l with
  | nil => intro n _; simp
  | cons a l ih =>
    intro n hn
    cases n with
    | zero => simp at hn
    | succ n =>
      simp only [List.length_cons, Nat.succ_le_succ_iff] at hn
      simp [List.take, ih n hn]

/-- A list whose elements are pairwise related in every order is already sorted. -/
lemma pairwise_of_total_const (R : α → α → Prop) (h : ∀ a b, R a b) :
    ∀ l : List α, l.Pairwise R := by
  intro l
  induction l with
  | nil => exact List.Pairwise.nil
  | cons a l ih => exact List.Pairwise.cons (fun b _ => h a b) ih

/-- The linear search finds the head position of the first hit. -/
lemma findFirstIdx_append_first (p : α → Bool) (pre : List α) (a : α) (post : List α)
    (hpre : ∀ b ∈ pre, p b = false) (ha : p a = true) :
    findFirstIdx p (pre ++ a :: post) = some pre.length := by
  induction pre with
  | nil => simp [findFirstIdx, ha]
  | cons b pre ih =>
    have hb : p b = false := hpre b (List.mem_cons_self b pre)
    have ih2 := ih (fun x hx => hpre x (List.mem_cons_of_mem b hx))
    simp [findFirstIdx, hb, ih2]

/-- The linear search misses when no element satisfies the predicate. -/
lemma findFirstIdx_none_of_all (p : α → Bool) :
    ∀ l : List α, (∀ a ∈ l, p a = false) → findFirstIdx p l = none := by
  intro l
  induction l with
  | nil => intro _; rfl
  | cons a l ih =>
    intro h
    have ha : p a = false := h a (List.mem_cons_self a l)
    simp [findFirstIdx, ha, ih (fun x hx => h x (List.mem_cons_of_mem a hx))]

/-- Dropping one more than the length of the left part of an append removes the
left part and the pivot. -/
lemma drop_len_succ_append (pre : List α) (a : α) (post : List α) :
    (pre ++ a :: post).drop (pre.length + 1) = post := by
  induction pre with
  | nil => simp
  | cons b pre ih => simp [ih]

/-- The dictionary lookup of the refinement agrees with the descending-rank
reading of the level assignment on every size present in a strictly descending
size list. -/
lemma dict_level_char (u : List ℚ) (hu : u.Pairwise (fun a b : ℚ => b < a))
    (fs : ℚ) (hfs : fs ∈ u) :
    dict_get (font_to_level u) fs "H3".data =
      (if ((u.filter (fun s => decide (fs < s))).length) = 0 then "H1".data
       else if ((u.filter (fun s => decide (fs < s))).length) = 1 then "H2".data
       else "H3".data) := by
  match u with
  | [] => cases hfs
  | [a] =>
    have hfa : fs = a := by simpa using hfs
    subst hfa
    simp [dict_get, font_to_level, List.filter, lt_irrefl]
  | [a, b] =>
    have hba : b < a := (List.pairwise_cons.mp hu).1 b (List.mem_singleton.mpr rfl)
    rcases (by simpa using hfs : fs = a ∨ fs = b) with rfl | rfl
    · have h1 : ¬ (fs < fs) := lt_irrefl fs
      have h2 : ¬ (fs < b) := not_lt.mpr (le_of_lt hba)
      have hne : ¬ (b = fs) := ne_of_lt hba
      simp [dict_get, font_to_level, List.find?, hne, List.filter, h1, h2]
    · have h1 : ¬ (fs < fs) := lt_irrefl fs
      simp [dict_get, font_to_level, List.find?, List.filter, h1, hba]
  | a :: b :: c :: rest =>
    simp only [List.pairwise_cons, List.mem_cons] at hu
    obtain ⟨ha, hb, hc, _⟩ := hu
    have hba : b < a := ha b (Or.inl rfl)
    have hca : c < a := ha c (Or.inr (Or.inl rfl))
    have hcb : c < b := hb c (Or.inl rfl)
    have hrest_a : ∀ x ∈ rest, x < a := fun x hx => ha x (Or.inr (Or.inr hx))
    have hrest_b : ∀ x ∈ rest, x < b := fun x hx => hb x (Or.inr hx)
    have hrest_c : ∀ x ∈ rest, x < c := hc
    rcases (by simpa using hfs : fs = a ∨ fs = b ∨ fs = c ∨ fs ∈ rest) with
      rfl | rfl | rfl | hmem
    · have e1 : ¬ (c = fs) := ne_of_lt hca
      have e2 : ¬ (b = fs) := ne_of_lt hba
      have f0 : ¬ (fs < fs) := lt_irrefl fs
      have f1 : ¬ (fs < b) := not_lt.mpr (le_of_lt hba)
      have f2 : ¬ (fs < c) := not_lt.mpr (le_of_lt hca)
      have f3 : (rest.filter (fun s => decide (fs < s))) = [] :=
        List.filter_eq_nil_iff.mpr (fun x hx => by
          simpa using not_lt.mpr (le_of_lt (hrest_a x hx)))
      simp [dict_get, font_to_level, List.find?, e1, e2, List.filter_cons, f0, f1, f2, f3]
    · have e1 : ¬ (c = fs) := ne_of_lt hcb
      have f0 : ¬ (fs < fs) := lt_irrefl fs
      have f2 : ¬ (fs < c) := not_lt.mpr (le_of_lt hcb)
      have f3 : (rest.filter (fun s => decide (fs < s))) = [] :=
        List.filter_eq_nil_iff.mpr (fun x hx => by
          simpa using not_lt.mpr (le_of_lt (hrest_b x hx)))
      simp [dict_get, font_to_level, List.find?, e1, List.filter_cons, f0, f2, f3, hba]
    · have f0 : ¬ (fs < fs) := lt_irrefl fs
      have f3 : (rest.filter (fun s => decide (fs < s))) = [] :=
        List.filter_eq_nil_iff.mpr (fun x hx => by
          simpa using not_lt.mpr (le_of_lt (hrest_c x hx)))
      simp [dict_get, font_to_level, List.find?, List.filter_cons, f0, f3, hca, hcb]
    · have hfc : fs < c := hrest_c fs hmem
      have hfb : fs < b := lt_trans hfc hcb
      have hfa2 : fs < a := lt_trans hfb hba
      have e1 : ¬ (c = fs) := fun h => absurd (h ▸ hfc) (lt_irrefl c)
      have e2 : ¬ (b = fs) := fun h => absurd (h ▸ hfb) (lt_irrefl b)
      have e3 : ¬ (a = fs) := fun h => absurd (h ▸ hfa2) (lt_irrefl a)
      have hlen : 2 ≤ ((a :: b :: c :: rest).filter (fun s => decide (fs < s))).length := by
        simp [List.filter_cons, hfa2, hfb, hfc]
      have h0 : ((a :: b :: c :: rest).filter (fun s => decide (fs < s))).length ≠ 0 := by
        omega
      have h1 : ((a :: b :: c :: rest).filter (fun s => decide (fs < s))).length ≠ 1 := by
        omega
      simp [dict_get, font_to_level, List.find?, e1, e2, e3, h0, h1]

/-- The sorted distinct sizes are a permutation of the deduplicated sizes. -/
lemma unique_font_sizes_perm (headings : List Heading) :
    List.Perm (unique_font_sizes headings) ((headings.map (fun h => h.font_size)).dedup) :=
  List.perm_insertionSort _ _

/-- The distinct sizes are sorted descending. -/
lemma unique_font_sizes_sorted (headings : List Heading) :
    (unique_font_sizes headings).Pairwise (fun a b : ℚ => b ≤ a) :=
  List.sorted_insertionSort _ _

/-- The distinct sizes are strictly descending. -/
lemma unique_font_sizes_strict (headings : List Heading) :
    (unique_font_sizes headings).Pairwise (fun a b : ℚ => b < a) := by
  have hnd : (unique_font_sizes headings).Nodup :=
    ((unique_font_sizes_perm headings).nodup_iff).mpr (List.nodup_dedup _)
  exact ((unique_font_sizes_sorted headings).and hnd).imp
    (fun hab => lt_of_le_of_ne hab.1 (Ne.symm hab.2))

/-- The level the refinement assigns to the size of a present candidate equals
the descending-rank reading of the assignment. -/
lemma levelFor_eq_rank (headings : List Heading) (h : Heading) (hmem : h ∈ headings) :
    levelFor headings h.font_size = rankLevelSpec headings h.font_size := by
  have hfs_dedup : h.font_size ∈ (headings.map (fun x => x.font_size)).dedup :=
    List.mem_dedup.mpr (List.mem_map_of_mem _ hmem)
  have hfs_mem : h.font_size ∈ unique_font_sizes headings :=
    ((unique_font_sizes_perm headings).mem_iff).mpr hfs_dedup
  have hchar := dict_level_char (unique_font_sizes headings)
    (unique_font_sizes_strict headings) h.font_size hfs_mem
  have hperm : List.Perm
      ((unique_font_sizes headings).filter (fun s => decide (h.font_size < s)))
      (((headings.map (fun x => x.font_size)).dedup).filter
        (fun s => decide (h.font_size < s))) :=
    (unique_font_sizes_perm headings).filter _
  unfold levelFor rankLevelSpec
  rw [hchar, hperm.length_eq]

/-- Every level the dictionary lookup produces is one of H1, H2 or H3. -/
lemma levelFor_mem_range (headings : List Heading) (fs : ℚ) :
    levelFor headings fs = "H1".data ∨ levelFor headings fs = "H2".data ∨
      levelFor headings fs = "H3".data := by
  have hassoc : ∀ p ∈ font_to_level (unique_font_sizes headings),
      p.2 = "H1".data ∨ p.2 = "H2".data ∨ p.2 = "H3".data := by
    intro p hp
    match hu : unique_font_sizes headings with
    | [] => rw [hu] at hp; cases hp
    | [a] =>
      rw [hu] at hp
      simp only [font_to_level, List.mem_singleton] at hp
      subst hp; exact Or.inl rfl
    | [a, b] =>
      rw [hu] at hp
      simp only [font_to_level, List.mem_cons, List.mem_singleton, List.not_mem_nil,
        or_false] at hp
      rcases hp with rfl | rfl
      · exact Or.inl rfl
      · exact Or.inr (Or.inl rfl)
    | a :: b :: c :: rest =>
      rw [hu] at hp
      simp only [font_to_level, List.mem_cons, List.not_mem_nil, or_false] at hp
      rcases hp with rfl | rfl | rfl
      · exact Or.inl rfl
      · exact Or.inr (Or.inl rfl)
      · exact Or.inr (Or.inr rfl)
  unfold levelFor dict_get
  cases hf : (font_to_level (unique_font_sizes headings)).reverse.find?
      (fun p => decide (p.1 = fs)) with
  | none => exact Or.inr (Or.inr rfl)
  | some p =>
    exact hassoc p (List.mem_reverse.mp (List.mem_of_find?_eq_some hf))

/-- C1: hierarchy refinement assigns levels solely from the descending ranking
of the distinct font sizes over the whole candidate list: a candidate of the
largest distinct size gets H1, of the second-largest H2, and of every other
size H3; with exactly one distinct size every candidate gets H1; the empty
input yields the empty output; and every output entry carries exactly the
level so assigned to some input candidate. -/
theorem c1_hierarchy_levels :
    refine_heading_hierarchy [] = [] ∧
    (∀ (headings : List Heading) (h : Heading), h ∈ headings →
      levelFor headings h.font_size = rankLevelSpec headings h.font_size) ∧
    (∀ headings : List Heading,
      ((headings.map (fun h => h.font_size)).dedup).length = 1 →
      ∀ h ∈ headings, levelFor headings h.font_size = "H1".data) ∧
    (∀ headings : List Heading, ∀ e ∈ refine_heading_hierarchy headings,
      ∃ h, h ∈ headings ∧
        e = OutlineEntry.mk (levelFor headings h.font_size) h.text h.page) := by
  refine ⟨rfl, fun hs h hmem => levelFor_eq_rank hs h hmem, ?_, ?_⟩
  · intro hs hlen h hmem
    rw [levelFor_eq_rank hs h hmem]
    obtain ⟨a, ha⟩ := List.length_eq_one.mp hlen
    have hfs : h.font_size ∈ (hs.map (fun x => x.font_size)).dedup :=
      List.mem_dedup.mpr (List.mem_map_of_mem _ hmem)
    rw [ha, List.mem_singleton] at hfs
    unfold rankLevelSpec
    rw [ha, hfs]
    simp [List.filter, lt_irrefl]
  · intro hs e he
    by_cases hE : hs.isEmpty
    · simp only [refine_heading_hierarchy, hE, if_pos] at he
      cases he
    · simp only [refine_heading_hierarchy, hE, Bool.false_eq_true, if_false] at he
      have he2 := List.mem_insertionSort
        (fun a b : OutlineEntry => a.page ≤ b.page) |>.mp (List.mem_of_mem_take he)
      obtain ⟨h, hh, rfl⟩ := List.mem_map.mp he2
      exact ⟨h, hh, rfl⟩

/-- C3: the refined outline has at most 50 entries, is sorted by non-decreasing
page with the original detection order as stable tie-break (its page classes
are prefixes of the corresponding page classes of the level-assigned input),
and every entry level is H1, H2 or H3; the output type OutlineEntry carries no
font-size field. -/
theorem c3_outline_bounds (headings : List Heading) :
    (refine_heading_hierarchy headings).length ≤ 50 ∧
    (refine_heading_hierarchy headings).Pairwise
      (fun a b : OutlineEntry => a.page ≤ b.page) ∧
    (∀ e ∈ refine_heading_hierarchy headings,
      e.level = "H1".data ∨ e.level = "H2".data ∨ e.level = "H3".data) ∧
    (∀ pg : Nat, ∃ k,
      (refine_heading_hierarchy headings).filter (fun e => e.page == pg) =
        ((headings.map (fun h =>
          OutlineEntry.mk (levelFor headings h.font_size) h.text h.page)).filter
            (fun e => e.page == pg)).take k) := by
  by_cases hE : headings.isEmpty
  · have h1 : headings = [] := List.isEmpty_iff.mp hE
    subst h1
    exact ⟨by simp [refine_heading_hierarchy], by simp [refine_heading_hierarchy],
      by simp [refine_heading_hierarchy], fun pg => ⟨0, by simp [refine_heading_hierarchy]⟩⟩
  · refine ⟨?_, ?_, ?_, ?_⟩
    · simp only [refine_heading_hierarchy, hE, Bool.false_eq_true, if_false]
      exact List.length_take_le _ _
    · simp only [refine_heading_hierarchy, hE, Bool.false_eq_true, if_false]
      exact List.Pairwise.sublist (List.take_sublist _ _) (List.sorted_insertionSort _ _)
    · intro e he
      simp only [refine_heading_hierarchy, hE, Bool.false_eq_true, if_false] at he
      have he2 := List.mem_insertionSort
        (fun a b : OutlineEntry => a.page ≤ b.page) |>.mp (List.mem_of_mem_take he)
      obtain ⟨h, _, rfl⟩ := List.mem_map.mp he2
      exact levelFor_mem_range headings h.font_size
    · intro pg
      simp only [refine_heading_hierarchy, hE, Bool.false_eq_true, if_false]
      obtain ⟨k, hk⟩ := filter_take_eq_take_filter (fun e : OutlineEntry => e.page == pg)
        (List.insertionSort (fun a b : OutlineEntry => a.page ≤ b.page)
          (headings.map (fun h =>
            OutlineEntry.mk (levelFor headings h.font_size) h.text h.page))) 50
      refine ⟨k, ?_⟩
      rw [hk, filter_insertionSort_of]
      intro a b hpa hr
      have ha : a.page = pg := by simpa using hpa
      have hb : b.page < a.page := Nat.lt_of_not_le hr
      have : b.page ≠ pg := by omega
      simpa using this

/-- C5: the ranker output is a permutation of its input, its scores are
non-increasing, and entries of equal score keep their original relative order. -/
theorem c5_ranker_stable (scored : List ScoredSection) :
    List.Perm (rank_order scored) scored ∧
    (rank_order scored).Pairwise
      (fun a b : ScoredSection => b.relevance_score ≤ a.relevance_score) ∧
    (∀ q : ℚ, (rank_order scored).filter (fun x => decide (x.relevance_score = q)) =
      scored.filter (fun x => decide (x.relevance_score = q))) := by
  refine ⟨List.perm_insertionSort _ _, List.sorted_insertionSort _ _, ?_⟩
  intro q
  apply filter_insertionSort_of
  intro a b hpa hr
  have ha : a.relevance_score = q := by simpa using hpa
  have hb : a.relevance_score < b.relevance_score := lt_of_not_le hr
  have : b.relevance_score ≠ q := fun hq => absurd (ha ▸ hq ▸ hb) (lt_irrefl _)
  simpa using this

/-- The span-classifier score as the claim words it, computed directly from
the ratio of the span size to the positive average size. -/
def heading_score (text : Str) (font_size avg_font_size : ℚ) : Nat :=
  heading_points text (font_size / avg_font_size)

/-- C2: for a positive average font size the span classifier rejects every
text whose stripped form is shorter than 3 characters, and otherwise accepts
exactly the spans whose five-criterion score reaches 3; a span scoring
exactly 2 is always rejected. -/
theorem c2_span_classifier (text : Str) (font_size avg_font_size : ℚ)
    (havg : 0 < avg_font_size) :
    ((stripStr text).length < 3 →
      is_likely_heading text font_size avg_font_size = false) ∧
    (3 ≤ (stripStr text).length →
      (is_likely_heading text font_size avg_font_size = true ↔
        3 ≤ heading_score text font_size avg_font_size)) ∧
    (heading_score text font_size avg_font_size = 2 →
      is_likely_heading text font_size avg_font_size = false) := by
  have hguard : (stripStr text).length < 3 →
      is_likely_heading text font_size avg_font_size = false := by
    intro hlt
    unfold is_likely_heading
    simp [hlt]
  have hiff : 3 ≤ (stripStr text).length →
      (is_likely_heading text font_size avg_font_size = true ↔
        3 ≤ heading_score text font_size avg_font_size) := by
    intro hge
    have hne : text.isEmpty = false := by
      cases text with
      | nil => simp [stripStr] at hge
      | cons a t => rfl
    have hnlt : ¬ (stripStr text).length < 3 := by omega
    unfold is_likely_heading heading_score
    rw [hne, if_pos havg]
    simp [hnlt]
  refine ⟨hguard, hiff, ?_⟩
  intro h2
  by_cases hlt : (stripStr text).length < 3
  · exact hguard hlt
  · cases hb : is_likely_heading text font_size avg_font_size with
    | false => rfl
    | true =>
      exfalso
      have := (hiff (by omega)).mp hb
      omega

/-- Every fragment the summarizer keeps is longer than 20 characters. -/
lemma selected_sentences_long (content persona job : Str) :
    ∀ t ∈ selected_sentences content persona job, 20 < t.length := by
  intro t ht
  unfold selected_sentences at ht
  split at ht
  · obtain ⟨s0, _, hs0⟩ := List.mem_filterMap.mp (by
      unfold fallbackSel at ht; exact ht)
    by_cases h20 : (stripStr s0).length > 20
    · rw [if_pos (by simpa using h20)] at hs0
      cases hs0
      exact h20
    · rw [if_neg (by simpa using h20)] at hs0
      cases hs0
  · obtain ⟨s0, _, hs0⟩ := List.mem_filterMap.mp (by
      unfold relevantSel at ht; exact ht)
    by_cases hcond : (decide ((stripStr s0).length > 20) &&
        (containsSub (lowerStr persona) (lowerStr (stripStr s0)) ||
          containsSub (lowerStr job) (lowerStr (stripStr s0)))) = true
    · rw [if_pos hcond] at hs0
      cases hs0
      have := (Bool.and_eq_true _ _).mp hcond
      simpa using this.1
    · rw [if_neg hcond] at hs0
      cases hs0

/-- Joining a list whose head is non-empty yields a non-empty string. -/
lemma joinSep_cons_ne_nil (sep : Str) (t : Str) (rest : List Str) (ht : t ≠ []) :
    joinSep sep (t :: rest) ≠ [] := by
  cases rest with
  | nil => simpa [joinSep] using ht
  | cons r rs =>
    simp only [joinSep, ne_eq, List.append_assoc, List.append_eq_nil]
    intro h
    exact ht h.1

/-- C6 (amended): the summarizer output never exceeds 303 characters, reaching
above 300 only as a 300-character truncation plus the ellipsis; it is empty
exactly when the content is empty or no fragment is selected. -/
theorem c6_summarizer_bounds (content persona job : Str) :
    (create_refined_text content persona job).length ≤ 303 ∧
    (300 < (create_refined_text content persona job).length →
      create_refined_text content persona job =
        (joinSep ". ".data ((selected_sentences content persona job).take 3)).take 300
          ++ "...".data) ∧
    (content = [] → create_refined_text content persona job = []) ∧
    (create_refined_text content persona job = [] ↔
      content = [] ∨ selected_sentences content persona job = []) := by
  by_cases hc : content.isEmpty
  · have hnil : content = [] := List.isEmpty_iff.mp hc
    subst hnil
    refine ⟨by simp [create_refined_text], by simp [create_refined_text],
      fun _ => by simp [create_refined_text], by simp [create_refined_text]⟩
  · have hcne : content ≠ [] := fun h => by simp [h] at hc
    have hout : create_refined_text content persona job =
        (if decide ((joinSep ". ".data
            ((selected_sentences content persona job).take 3)).length > 300)
          then (joinSep ". ".data
            ((selected_sentences content persona job).take 3)).take 300 ++ "...".data
          else joinSep ". ".data ((selected_sentences content persona job).take 3)) := by
      unfold create_refined_text
      simp [hc]
    by_cases h300 : (joinSep ". ".data
        ((selected_sentences content persona job).take 3)).length > 300
    · have hlen300 : ((joinSep ". ".data
          ((selected_sentences content persona job).take 3)).take 300).length = 300 := by
        rw [List.length_take]
        omega
      have hout2 : create_refined_text content persona job =
          (joinSep ". ".data
            ((selected_sentences content persona job).take 3)).take 300 ++ "...".data := by
        rw [hout, if_pos (by simpa using h300)]
      refine ⟨?_, fun _ => hout2, fun h => absurd h hcne, ?_⟩
      · rw [hout2, List.length_append, hlen300]
        rfl
      · constructor
        · intro hempty
          rw [hout2] at hempty
          exact absurd (List.append_eq_nil.mp hempty).2 (by simp)
        · rintro (h | h)
          · exact absurd h hcne
          · rw [h] at h300
            simp [joinSep] at h300
    · have hout2 : create_refined_text content persona job =
          joinSep ". ".data ((selected_sentences content persona job).take 3) := by
        rw [hout, if_neg (by simpa using h300)]
      refine ⟨by rw [hout2]; omega, fun habs => by rw [hout2] at habs; omega,
        fun h => absurd h hcne, ?_⟩
      constructor
      · intro hempty
        rw [hout2] at hempty
        right
        cases hsel : selected_sentences content persona job with
        | nil => rfl
        | cons t rest =>
          exfalso
          have ht : 20 < t.length :=
            selected_sentences_long content persona job t (hsel ▸ List.mem_cons_self t rest)
          have htne : t ≠ [] := by
            intro h0
            rw [h0] at ht
            simp at ht
          rw [hsel] at hempty
          exact joinSep_cons_ne_nil _ t _ htne (by simpa [List.take] using hempty)
      · rintro (h | h)
        · exact absurd h hcne
        · rw [hout2, h]
          rfl

/-- Every heading the relevance path finds carries the fixed default level H2. -/
lemma find_headings_level (spans : List Span) :
    ∀ h ∈ find_headings_in_page spans, h.level = "H2".data := by
  intro h hh
  unfold find_headings_in_page at hh
  split at hh
  · cases hh
  · obtain ⟨it, _, hit⟩ := List.mem_filterMap.mp hh
    split at hit
    · cases hit
      rfl
    · cases hit

/-- C7: a page with no accepted heading but non-whitespace text yields exactly
one whole-page section at level content; a page with accepted headings yields
one section per heading at level H2; section content is the ten lines after the
first line containing the heading (case-insensitive substring search), joined
by spaces and stripped, or the first ten lines joined by spaces on a miss. -/
theorem c7_page_segmentation (filename : Str) (spans : List Span)
    (plain_text : Str) (page_num : Nat) :
    (find_headings_in_page spans = [] → stripStr plain_text ≠ [] →
      extract_page_sections filename spans plain_text page_num =
        [Section.mk filename (page_num + 1) (page_title (page_num + 1))
          plain_text "content".data]) ∧
    (find_headings_in_page spans ≠ [] →
      extract_page_sections filename spans plain_text page_num =
        (find_headings_in_page spans).map (fun h =>
          Section.mk filename (page_num + 1) h.text
            (extract_section_content plain_text h.text) "H2".data)) ∧
        (∀ (heading : Str) (pre : List Str) (line : Str) (post : List Str),
      pySplit '\n' plain_text = pre ++ line :: post →
      (∀ l0 ∈ pre, containsSub (lowerStr heading) (lowerStr l0) = false) →
      containsSub (lowerStr heading) (lowerStr line) = true →
      extract_section_content plain_text heading =
        stripStr (joinSep " ".data (post.take 10))) ∧
    (∀ heading : Str,
      (∀ l0 ∈ pySplit '\n' plain_text,
        containsSub (lowerStr heading) (lowerStr l0) = false) →
      extract_section_content plain_text heading =
        joinSep " ".data ((pySplit '\n' plain_text).take 10)) := by
  refine ⟨?_, ?_, ?_, ?_⟩
  · intro h0 hws
    have hwsE : (stripStr plain_text).isEmpty = false := by
      cases hst : stripStr plain_text with
      | nil => exact absurd hst hws
      | cons a t => rfl
    unfold extract_page_sections
    rw [h0]
    simp [hwsE]
  · intro hne
    have hE : (find_headings_in_page spans).isEmpty = false := by
      cases hh : find_headings_in_page spans with
      | nil => exact absurd hh hne
      | cons a t => rfl
    unfold extract_page_sections
    simp only [hE, Bool.false_eq_true, if_false]
    exact List.map_congr_left (fun h hmem => by
      rw [find_headings_level spans h hmem])
  · intro heading pre line post hsplit hpre hline
    unfold extract_section_content
    dsimp only
    rw [hsplit, findFirstIdx_append_first _ pre line post hpre hline]
    dsimp only
    rw [drop_len_succ_append]
  · intro heading hmiss
    unfold extract_section_content
    dsimp only
    rw [findFirstIdx_none_of_all _ _ hmiss]

/-- The refinement factors through the size-keeping sort-and-truncate: the
final outline is the restored list with levels assigned from the original
candidate list and sizes erased. -/
lemma refine_eq_map_keep (headings : List Heading) :
    refine_heading_hierarchy headings =
      (refine_keep_sizes headings).map (fun h =>
        OutlineEntry.mk (levelFor headings h.font_size) h.text h.page) := by
  by_cases hE : headings.isEmpty
  · have h1 : headings = [] := List.isEmpty_iff.mp hE
    subst h1
    rfl
  · simp only [refine_heading_hierarchy, refine_keep_sizes, hE, Bool.false_eq_true,
      if_false]
    rw [← List.map_insertionSort (fun a b : Heading => a.page ≤ b.page)
      (fun a b : OutlineEntry => a.page ≤ b.page) _ headings
      (fun a _ b _ => Iff.rfl), List.map_take]

/-- The distinct-size list only depends on the multiset of candidates. -/
lemma unique_font_sizes_of_perm (hs1 hs2 : List Heading)
    (hp : List.Perm hs1 hs2) :
    unique_font_sizes hs1 = unique_font_sizes hs2 := by
  apply List.eq_of_perm_of_sorted _ (List.sorted_insertionSort _ _)
    (List.sorted_insertionSort _ _)
  exact (List.perm_insertionSort _ _).trans
    (((hp.map (fun h => h.font_size)).dedup).trans
      (List.perm_insertionSort _ _).symm)

/-- C8 (amended): on every list of at most 50 headings, where the truncation
discards nothing, re-running the refinement on its own output with every entry
restored to its original font size reproduces the first output exactly. -/
theorem c8_refine_idempotent_bounded (headings : List Heading)
    (hlen : headings.length ≤ 50) :
    refine_heading_hierarchy (refine_keep_sizes headings) =
      refine_heading_hierarchy headings := by
  have hsorted := List.sorted_insertionSort
    (fun a b : Heading => a.page ≤ b.page) headings
  have hkeep : refine_keep_sizes headings =
      List.insertionSort (fun a b : Heading => a.page ≤ b.page) headings := by
    unfold refine_keep_sizes
    exact take_eq_self_of_le _ _ (by rw [List.length_insertionSort]; exact hlen)
  have hperm : List.Perm
      (List.insertionSort (fun a b : Heading => a.page ≤ b.page) headings) headings :=
    List.perm_insertionSort _ _
  have hks : refine_keep_sizes
      (List.insertionSort (fun a b : Heading => a.page ≤ b.page) headings) =
      List.insertionSort (fun a b : Heading => a.page ≤ b.page) headings := by
    unfold refine_keep_sizes
    rw [List.Sorted.insertionSort_eq hsorted]
    exact take_eq_self_of_le _ _ (by rw [List.length_insertionSort]; exact hlen)
  rw [hkeep, refine_eq_map_keep
    (List.insertionSort (fun a b : Heading => a.page ≤ b.page) headings),
    refine_eq_map_keep headings, hks, hkeep]
  exact List.map_congr_left (fun h _ => by
    unfold levelFor
    rw [unique_font_sizes_of_perm _ _ hperm])

/-- C9: when the embedding model is present but encoding the query or the text
fails, the relevance call returns exactly the keyword score with the extractor
state unchanged, and with that state every later call still dispatches to the
embedding strategy first. -/
theorem c9_semantic_fallback (s : ExtractorState) (m : Str → Option (List ℚ))
    (sqrtQ : ℚ → ℚ) (query text : Str)
    (hm : s.sentence_model = some m)
    (hfail : m query = none ∨ m text = none) :
    calculate_relevance s sqrtQ query text =
      (calculate_keyword_relevance s.nlp query text, s) ∧
    (∀ q2 t2 : Str, calculate_relevance s sqrtQ q2 t2 =
      calculate_semantic_relevance s m sqrtQ q2 t2) := by
  constructor
  · unfold calculate_relevance calculate_semantic_relevance
    rw [hm]
    dsimp only
    rcases hfail with hq | ht
    · rw [hq]
    · cases hq : m query with
      | none => rfl
      | some qe =>
        dsimp only
        rw [ht]
  · intro q2 t2
    unfold calculate_relevance
    rw [hm]

/-- The keyword strategy scores zero on every pair when no NLP model is loaded. -/
lemma keyword_relevance_no_nlp (query text : Str) :
    calculate_keyword_relevance none query text = 0 := by
  unfold calculate_keyword_relevance
  split
  · rfl
  · simp [extract_keywords]

/-- C10: with the NLP handle absent, keyword extraction is constantly empty,
every keyword relevance score is 0, and ranking under the keyword strategy
returns the sections in their original insertion order, each scored 0. -/
theorem c10_no_nlp_degenerate_order (sections : List Section) (persona job : Str)
    (sqrtQ : ℚ → ℚ) :
    (∀ (text : Str) (k : Nat), extract_keywords none text k = []) ∧
    (∀ query text : Str, calculate_keyword_relevance none query text = 0) ∧
    rank_sections_by_relevance (ExtractorState.mk none none) sqrtQ
        sections persona job =
      sections.map (fun sec0 => ScoredSection.mk sec0 0) := by
  refine ⟨fun _ _ => rfl, fun q t => keyword_relevance_no_nlp q t, ?_⟩
  unfold rank_sections_by_relevance
  by_cases hE : sections.isEmpty
  · have h1 : sections = [] := List.isEmpty_iff.mp hE
    subst h1
    rfl
  · simp only [hE, Bool.false_eq_true, if_false]
    have hscored : sections.map (fun sec0 => ScoredSection.mk sec0
        (calculate_relevance (ExtractorState.mk none none) sqrtQ
          (persona ++ (' ' :: job)) (sec0.title ++ (' ' :: sec0.content))).1) =
        sections.map (fun sec0 => ScoredSection.mk sec0 0) :=
      List.map_congr_left (fun sec0 _ => by
        unfold calculate_relevance
        rw [keyword_relevance_no_nlp])
    rw [hscored]
    unfold rank_order
    apply List.Sorted.insertionSort_eq
    apply (List.pairwise_map).mpr
    exact pairwise_of_total_const _ (fun a b => le_refl (0 : ℚ)) sections

/-- The keyword set of the empty string is empty under every model. -/
lemma kwSet_nil (nlp : Option Tokenizer) : kwSet nlp [] = ∅ := by
  cases nlp <;> rfl

/-- C4 (amended): the keyword relevance score is always the Jaccard similarity
of the two extracted keyword sets; it is 0 when the query set, the text set or
the intersection is empty; and it is 1 on identical texts whose extracted
keyword set is non-empty (identity of the texts alone does not suffice). -/
theorem c4_keyword_jaccard (nlp : Option Tokenizer) (query text : Str) :
    calculate_keyword_relevance nlp query text =
      (((kwSet nlp query ∩ kwSet nlp text).card : ℚ) /
        ((kwSet nlp query ∪ kwSet nlp text).card : ℚ)) ∧
    (kwSet nlp query = ∅ → calculate_keyword_relevance nlp query text = 0) ∧
    (kwSet nlp text = ∅ → calculate_keyword_relevance nlp query text = 0) ∧
    (kwSet nlp query ∩ kwSet nlp text = ∅ →
      calculate_keyword_relevance nlp query text = 0) ∧
    (query = text → kwSet nlp query ≠ ∅ →
      calculate_keyword_relevance nlp query text = 1) := by
  have hjac : calculate_keyword_relevance nlp query text =
      (((kwSet nlp query ∩ kwSet nlp text).card : ℚ) /
        ((kwSet nlp query ∪ kwSet nlp text).card : ℚ)) := by
    unfold calculate_keyword_relevance kwSet
    by_cases hq : query.isEmpty
    · have hqn : query = [] := List.isEmpty_iff.mp hq
      subst hqn
      have : (extract_keywords nlp (lowerStr []) 10).toFinset = ∅ := kwSet_nil nlp
      rw [this]
      simp
    · by_cases ht : text.isEmpty
      · have htn : text = [] := List.isEmpty_iff.mp ht
        subst htn
        have : (extract_keywords nlp (lowerStr []) 10).toFinset = ∅ := kwSet_nil nlp
        rw [this]
        simp [hq]
      · simp only [hq, ht, Bool.or_self, Bool.false_eq_true, if_false, Bool.or_false]
        by_cases hqk : (extract_keywords nlp (lowerStr query) 10).toFinset = ∅
        · rw [if_pos hqk, hqk]
          simp
        · rw [if_neg hqk]
          by_cases hu : 0 < ((extract_keywords nlp (lowerStr query) 10).toFinset ∪
              (extract_keywords nlp (lowerStr text) 10).toFinset).card
          · rw [if_pos hu]
          · rw [if_neg hu]
            have : ((extract_keywords nlp (lowerStr query) 10).toFinset ∪
                (extract_keywords nlp (lowerStr text) 10).toFinset).card = 0 := by
              omega
            rw [this]
            simp
  refine ⟨hjac, ?_, ?_, ?_, ?_⟩
  · intro h
    rw [hjac, h]
    simp
  · intro h
    rw [hjac, h]
    simp
  · intro h
    rw [hjac, h]
    simp
  · intro heq hne
    subst heq
    rw [hjac, Finset.inter_self, Finset.union_self]
    have hpos : 0 < (kwSet nlp query).card := Finset.card_pos.mpr
      (Finset.nonempty_iff_ne_empty.mpr hne)
    rw [div_self]
    exact Nat.cast_ne_zero.mpr (by omega)

/-- Modelled from the spec: the external spaCy tokenizer is not part of the
repository; the specification only requires that it deliver tokens with the
attributes the keyword filter reads. This concrete instance splits on spaces,
uses the token text as its own lemma, marks purely alphabetic tokens as
alphabetic and flags no stopwords or punctuation. -/
def simple_nlp : Tokenizer := fun s =>
  ((pySplit ' ' s).filter (fun w => !w.isEmpty)).map (fun w =>
    Token.mk w w (w.all Char.isAlpha && !w.isEmpty) false false)

/-- Concrete instantiation of the C1 theorem on the four-heading example and a
single-size example. -/
theorem c1_hierarchy_levels_witness :
    (Heading.mk "a".data 16 1 ∈
      [Heading.mk "a".data 16 1, Heading.mk "b".data 14 1,
       Heading.mk "c".data 12 2, Heading.mk "d".data 10 3]) ∧
    levelFor
      [Heading.mk "a".data 16 1, Heading.mk "b".data 14 1,
       Heading.mk "c".data 12 2, Heading.mk "d".data 10 3]
      (Heading.mk "a".data 16 1).font_size =
      rankLevelSpec
        [Heading.mk "a".data 16 1, Heading.mk "b".data 14 1,
         Heading.mk "c".data 12 2, Heading.mk "d".data 10 3]
        (Heading.mk "a".data 16 1).font_size ∧
    levelFor [Heading.mk "x".data 12 1, Heading.mk "y".data 12 2]
      (Heading.mk "x".data 12 1).font_size = "H1".data :=
  ⟨by decide,
   c1_hierarchy_levels.2.1 _ (Heading.mk "a".data 16 1) (by decide),
   c1_hierarchy_levels.2.2.1 _ (by decide) (Heading.mk "x".data 12 1) (by decide)⟩

/-- Concrete instantiation of the C2 theorem on a numbered title span. -/
theorem c2_span_classifier_witness :
    (0 : ℚ) < 10 ∧ 3 ≤ (stripStr "1. Introduction".data).length ∧
    (is_likely_heading "1. Introduction".data 14 10 = true ↔
      3 ≤ heading_score "1. Introduction".data 14 10) :=
  ⟨by decide, by decide,
   (c2_span_classifier "1. Introduction".data 14 10 (by decide)).2.1 (by decide)⟩

/-- Concrete instantiation of the C3 level-range conjunct on a two-heading
document. -/
theorem c3_outline_bounds_witness :
    (OutlineEntry.mk "H1".data "a".data 1 ∈
      refine_heading_hierarchy [Heading.mk "a".data 16 1, Heading.mk "b".data 12 2]) ∧
    ((OutlineEntry.mk "H1".data "a".data 1).level = "H1".data ∨
      (OutlineEntry.mk "H1".data "a".data 1).level = "H2".data ∨
      (OutlineEntry.mk "H1".data "a".data 1).level = "H3".data) :=
  ⟨by decide,
   (c3_outline_bounds [Heading.mk "a".data 16 1, Heading.mk "b".data 12 2]).2.2.1
     (OutlineEntry.mk "H1".data "a".data 1) (by decide)⟩

/-- C6 counterexample: the two-character content is non-empty yet the
summarizer returns the empty string, refuting the claimed equivalence between
empty output and empty input. -/
theorem c6_summarizer_counterexample :
    create_refined_text "hi".data "p".data "j".data = [] ∧
      "hi".data ≠ ([] : Str) :=
  ⟨by decide, by decide⟩

/-- Concrete instantiation of the C6 theorem on the empty content. -/
theorem c6_summarizer_bounds_witness :
    create_refined_text [] "p".data "j".data = [] :=
  (c6_summarizer_bounds [] "p".data "j".data).2.2.1 rfl

/-- Concrete instantiation of the C7 theorem: an unheaded page becomes one
whole-page section and a page with one accepted span becomes one H2 section. -/
theorem c7_page_segmentation_witness :
    (find_headings_in_page [] = []) ∧ (stripStr "x".data ≠ []) ∧
    extract_page_sections "d".data [] "x".data 0 =
      [Section.mk "d".data 1 (page_title 1) "x".data "content".data] ∧
    (find_headings_in_page [Span.mk "1. Introduction".data 20,
        Span.mk "body text year".data 10] ≠ []) ∧
    extract_page_sections "d".data
        [Span.mk "1. Introduction".data 20, Span.mk "body text year".data 10]
        "x".data 0 =
      (find_headings_in_page [Span.mk "1. Introduction".data 20,
        Span.mk "body text year".data 10]).map (fun h =>
          Section.mk "d".data 1 h.text (extract_section_content "x".data h.text)
            "H2".data) :=
  ⟨rfl, by decide,
   (c7_page_segmentation "d".data [] "x".data 0).1 rfl (by decide),
   by decide,
   (c7_page_segmentation "d".data
     [Span.mk "1. Introduction".data 20, Span.mk "body text year".data 10]
     "x".data 0).2.1 (by decide)⟩

/-- C8 counterexample: with 51 candidates whose only largest-size entry sits on
the last page, truncation to 50 drops the whole H1 size class, and re-running
the refinement on the output with the original sizes restored relabels every
entry H1 instead of H2. -/
theorem c8_refine_counterexample :
    refine_heading_hierarchy (refine_keep_sizes
      (((List.range 50).map (fun i => Heading.mk "h".data 10 (i + 1))) ++
        [Heading.mk "h".data 12 51])) ≠
      refine_heading_hierarchy
        (((List.range 50).map (fun i => Heading.mk "h".data 10 (i + 1))) ++
          [Heading.mk "h".data 12 51]) := by
  decide

/-- Concrete instantiation of the amended C8 theorem on a two-heading list. -/
theorem c8_refine_idempotent_bounded_witness :
    ([Heading.mk "a".data 14 2, Heading.mk "b".data 12 1] : List Heading).length ≤ 50 ∧
    refine_heading_hierarchy (refine_keep_sizes
      [Heading.mk "a".data 14 2, Heading.mk "b".data 12 1]) =
      refine_heading_hierarchy [Heading.mk "a".data 14 2, Heading.mk "b".data 12 1] :=
  ⟨by decide, c8_refine_idempotent_bounded _ (by decide)⟩

/-- Concrete instantiation of the C9 theorem with an always-failing encoder. -/
theorem c9_semantic_fallback_witness :
    (ExtractorState.mk (some (fun _ => none)) none).sentence_model =
      some (fun _ => (none : Option (List ℚ))) ∧
    calculate_relevance (ExtractorState.mk (some (fun _ => none)) none)
        (fun q => q) "a".data "b".data =
      (calculate_keyword_relevance none "a".data "b".data,
        ExtractorState.mk (some (fun _ => none)) none) :=
  ⟨rfl,
   (c9_semantic_fallback (ExtractorState.mk (some (fun _ => none)) none)
     (fun _ => none) (fun q => q) "a".data "b".data rfl (Or.inl rfl)).1⟩

/-- C4 counterexample: the identical non-empty texts made of one short token
yield an empty keyword set, so the score is 0 rather than the claimed 1. -/
theorem c4_keyword_jaccard_counterexample :
    ("ab".data : Str) ≠ [] ∧
    calculate_keyword_relevance (some simple_nlp) "ab".data "ab".data = 0 ∧
    (0 : ℚ) ≠ 1 :=
  ⟨by decide, by decide, by decide⟩

/-- Concrete instantiation of the amended C4 theorem on identical texts with a
non-empty keyword set. -/
theorem c4_keyword_jaccard_witness :
    kwSet (some simple_nlp) "revenue growth".data ≠ ∅ ∧
    calculate_keyword_relevance (some simple_nlp) "revenue growth".data
      "revenue growth".data = 1 :=
  ⟨by decide,
   (c4_keyword_jaccard (some simple_nlp) "revenue growth".data
     "revenue growth".data).2.2.2.2 rfl (by decide)⟩

end Round2
